import Mathlib

/-!
Shallow embedding of the crawl/extract/validate core of
`seo_link_analyzer.py`: the recursive same-domain link crawler
(`extract_clickable_links_recursive`), metadata extraction
(`get_meta_data`), sitemap resolution (`get_sitemap_urls`), link
validation (`check_for_error_links`) and the orchestration
(`scan_and_check_links`).

The network is modelled as a pure function from URLs to fetch results: a
fetch either raises a transport error (`FetchResult.err`, standing for
`requests.RequestException`) or returns a page carrying its HTTP status
code together with the parsed content the program reads from the body
(`<a href>` values, title, meta description, H1, canonical link, JSON-LD
blocks, breadcrumb list markup, and sitemap `<loc>` entries).

URLs are modelled as parsed components (scheme, netloc, path), matching
the `urlparse` fields the program uses. Raw `href` strings are modelled
by what matters to the pipeline: whether the string contains `"#"` (such
links are skipped), and how `urljoin` resolves them — an absolute
reference yields its own URL, a root-relative reference keeps the base's
scheme and host. Directory-relative resolution is subsumed by the
root-relative case (the resolved path is carried directly).
-/

/-- A parsed absolute URL: scheme, network location (host) and path,
mirroring the `urlparse` components used by the program. -/
structure Url where
  scheme : String
  host : String
  path : String
deriving DecidableEq, Repr

/-- How `urljoin(base, raw)` resolves a raw reference: an absolute
reference resolves to its own URL, a (root-)relative reference keeps the
base's scheme and host and carries the resolved path. -/
inductive HrefTarget where
  | absolute : Url → HrefTarget
  | relative : String → HrefTarget
deriving DecidableEq, Repr

/-- `urljoin(base_url, raw)` from `urllib.parse`, on the reference
classes the program encounters. -/
def urljoin (base : Url) : HrefTarget → Url
  | .absolute u => u
  | .relative p => { scheme := base.scheme, host := base.host, path := p }

/-- A raw `href` attribute value of an `<a>` tag: whether the raw string
contains `"#"` (line 49 of the source skips those), and its resolution
behaviour under `urljoin`. -/
structure RawHref where
  hasHash : Bool
  target : HrefTarget
deriving DecidableEq, Repr

/-- One entry of a JSON-LD `BreadcrumbList`'s `itemListElement`; the
program reads the `position`, `name` and `item` keys with `.get`, each
of which may be absent. -/
structure BreadcrumbItem where
  position : Option Nat
  name : Option String
  item : Option String
deriving DecidableEq, Repr

/-- A `<script type="application/ld+json">` block: either ill-formed
JSON (`json.loads` raises `JSONDecodeError`, which the program catches
and skips), or a parsed object with an optional `@type` and its
`itemListElement` list. -/
inductive JsonLdBlock where
  | malformed
  | parsed (atType : Option String) (itemListElement : List BreadcrumbItem)
deriving DecidableEq, Repr

/-- An `<li>` entry inside the breadcrumb markup container: either it
contains an `<a>` tag (with its text and optional `href`), or only
plain text. -/
inductive LiItem where
  | withLink (text : String) (href : Option String)
  | plain (text : String)
deriving DecidableEq, Repr

/-- Everything the program reads out of one fetched response: the HTTP
status code and the parsed pieces of the body. -/
structure Page where
  status : Nat
  hrefs : List RawHref
  title : Option String
  metaDescription : Option String
  h1 : Option String
  canonical : Option String
  jsonLd : List JsonLdBlock
  breadcrumbLis : Option (List LiItem)
  sitemapLocs : List HrefTarget
deriving DecidableEq, Repr

/-- Outcome of `requests.get(url)`: a response, or a raised
`requests.RequestException` carrying its message. -/
inductive FetchResult where
  | ok : Page → FetchResult
  | err : String → FetchResult
deriving DecidableEq, Repr

/-- The network, as a pure map from URLs to fetch outcomes. -/
def Net := Url → FetchResult

/-- The `for a_tag in soup.find_all('a', href=True)` loop body of
`extract_clickable_links_recursive` (source lines 45–59): skip hrefs
containing `"#"`, resolve the rest against the current page URL, and
keep those on the same domain as the current page that are not in the
visited set, recording the edge `(full_link, base_url)`. -/
def collect_page_links (base_url : Url) (visited : List Url)
    (hrefs : List RawHref) : List (Url × Url) :=
  hrefs.filterMap fun a_tag =>
    if a_tag.hasHash then none
    else
      let full_link := urljoin base_url a_tag.target
      if full_link.host = base_url.host ∧ full_link ∉ visited then
        some (full_link, base_url)
      else none

/-- The `for internal_link, parent_url in links.copy()` recursion loop
(source lines 62–65): recurse into each recorded edge's target,
threading the shared visited set and appending the recursive results. -/
def extract_links_loop
    (f : Url → List Url → List (Url × Url) × List Url) :
    List (Url × Url) → List Url → List (Url × Url) × List Url
  | [], visited => ([], visited)
  | (internal_link, _parent) :: rest, visited =>
    let r := f internal_link visited
    let next := extract_links_loop f rest r.2
    (r.1 ++ next.1, next.2)

/-- `extract_clickable_links_recursive(base_url, max_depth, visited)`
(source lines 21–70). The Python function mutates a shared visited set
and returns the edge list; here the updated visited set is returned as
the second component. A fresh call (Python's `visited=None`) passes
`[]`. The unused `depth` parameter (only read by commented-out prints)
is omitted. -/
def extract_clickable_links_recursive (net : Net) (base_url : Url)
    (max_depth : Nat) (visited : List Url) :
    List (Url × Url) × List Url :=
  if base_url ∈ visited then ([], visited)
  else
    let visited1 := base_url :: visited
    match net base_url with
    | .err _ => ([], visited1)
    | .ok response =>
      if response.status = 200 then
        let links := collect_page_links base_url visited1 response.hrefs
        match max_depth with
        | 0 => (links, visited1)
        | d + 1 =>
          let more := extract_links_loop
            (fun u v => extract_clickable_links_recursive net u d v)
            links visited1
          (links ++ more.1, more.2)
      else ([], visited1)

/-- Python's `f"{x}"` rendering of a value that may be `None`
(an absent JSON key), for string values. -/
def pyShowOptStr : Option String → String
  | none => "None"
  | some s => s

/-- Python's `f"{x}"` rendering of a value that may be `None`, for the
numeric `position` field. -/
def pyShowOptNat : Option Nat → String
  | none => "None"
  | some n => toString n

/-- Formatting of one JSON-LD breadcrumb item,
`f"{position}: {name} ({url})"` (source line 113). -/
def format_breadcrumb_item (item : BreadcrumbItem) : String :=
  pyShowOptNat item.position ++ ": " ++ pyShowOptStr item.name ++ " ("
    ++ pyShowOptStr item.item ++ ")"

/-- Tier 1 of breadcrumb extraction (source lines 100–115): scan every
JSON-LD block, skip ill-formed ones, and for each block whose `@type`
is `"BreadcrumbList"` append its formatted items in the order they
appear in `itemListElement`. -/
def jsonld_breadcrumbs (scripts : List JsonLdBlock) : List String :=
  scripts.foldl
    (fun breadcrumbs script =>
      match script with
      | .malformed => breadcrumbs
      | .parsed atType items =>
        if atType = some "BreadcrumbList" then
          breadcrumbs ++ items.map format_breadcrumb_item
        else breadcrumbs)
    []

/-- `enumerate(breadcrumb_items, 1)`: pair each list element with its
1-based index in document order. -/
def enumerateFrom : Nat → List α → List (Nat × α)
  | _, [] => []
  | i, a :: rest => (i, a) :: enumerateFrom (i + 1) rest

/-- Formatting of one HTML breadcrumb `<li>` (source lines 124–132):
use the inner link's text and href when present, else the item's own
text with no URL; an absent or empty href renders as `"No URL"`. -/
def format_html_breadcrumb : Nat × LiItem → String
  | (index, .withLink text href) =>
    let url := match href with
      | some u => if u = "" then "No URL" else u
      | none => "No URL"
    toString index ++ ": " ++ text ++ " (" ++ url ++ ")"
  | (index, .plain text) =>
    toString index ++ ": " ++ text ++ " (No URL)"

/-- Tier 2 of breadcrumb extraction (source lines 118–134): only when
tier 1 yielded nothing, read the breadcrumb markup container when the
page has one, numbering items 1-based in document order. -/
def html_breadcrumbs : Option (List LiItem) → List String
  | none => []
  | some breadcrumb_items =>
    (enumerateFrom 1 breadcrumb_items).map format_html_breadcrumb

/-- The tuple `get_meta_data` returns (source line 139). -/
structure MetaData where
  title : Option String
  title_length : Nat
  meta_description : Option String
  meta_description_length : Nat
  h1_title : Option String
  canonical_url : Option String
  breadcrumbs_text : Option String
deriving DecidableEq, Repr

/-- `get_meta_data(link)` (source lines 73–139). The initial
`requests.get(link)` is NOT guarded by a try/except, so a transport
error propagates to the caller (`Except.error`); the body is parsed
regardless of the response's status code. -/
def get_meta_data (net : Net) (link : Url) : Except String MetaData :=
  match net link with
  | .err e => .error e
  | .ok soup =>
    let title := soup.title
    let title_length := match title with
      | some t => t.length
      | none => 0
    let meta_description := soup.metaDescription
    let meta_description_length := match meta_description with
      | some d => d.length
      | none => 0
    let breadcrumbs := jsonld_breadcrumbs soup.jsonLd
    let breadcrumbs :=
      if breadcrumbs = [] then html_breadcrumbs soup.breadcrumbLis
      else breadcrumbs
    let breadcrumbs_text :=
      if breadcrumbs = [] then none
      else some (String.intercalate " > " breadcrumbs)
    .ok
      { title := title
        title_length := title_length
        meta_description := meta_description
        meta_description_length := meta_description_length
        h1_title := soup.h1
        canonical_url := soup.canonical
        breadcrumbs_text := breadcrumbs_text }

/-- The fixed probe list of `get_sitemap_urls` (source line 144). -/
def sitemap_paths : List String :=
  ["/sitemap.xml", "/en/sitemap.xml", "/es/sitemap.xml"]

/-- `get_sitemap_urls(base_url)` (source lines 143–172): probe each
conventional location resolved against the base URL; a transport error
or a non-200 status skips that location; a 200 response contributes
every declared `<loc>`, resolved against the base URL. The Python
accumulator is a set used only for membership, modelled here as the
concatenated list. -/
def get_sitemap_urls (net : Net) (base_url : Url) : List Url :=
  sitemap_paths.foldl
    (fun all_urls sitemap_path =>
      let sitemap_url := urljoin base_url (.relative sitemap_path)
      match net sitemap_url with
      | .err _ => all_urls
      | .ok response =>
        if response.status = 200 then
          all_urls ++ response.sitemapLocs.map (fun loc => urljoin base_url loc)
        else all_urls)
    []

/-- The `status` field of a broken-link record: an HTTP status code, or
the string `f"Request error: {e}"` for a transport failure. -/
inductive StatusOutcome where
  | code : Nat → StatusOutcome
  | requestError : String → StatusOutcome
deriving DecidableEq, Repr

/-- `check_for_error_links(links)` (source lines 174–190): probe each
edge's target in input order; status 404 and any other non-200 status
are recorded with the status, a transport failure is recorded with a
diagnostic message, a 200 adds nothing. -/
def check_for_error_links (net : Net) (links : List (Url × Url)) :
    List (Url × Url × StatusOutcome) :=
  links.foldl
    (fun broken_links lp =>
      match net lp.1 with
      | .err e =>
        broken_links ++ [(lp.1, lp.2, .requestError ("Request error: " ++ e))]
      | .ok response =>
        if response.status = 404 then
          broken_links ++ [(lp.1, lp.2, .code 404)]
        else if response.status ≠ 200 then
          broken_links ++ [(lp.1, lp.2, .code response.status)]
        else broken_links)
    []

/-- One value of the `results` dict built by `scan_and_check_links`
(source lines 220–230 and 237–247). -/
structure PageResult where
  link : Url
  title : Option String
  title_length : Nat
  meta_description : Option String
  meta_description_length : Nat
  h1_title : Option String
  canonical_url : Option String
  breadcrumbs : Option String
  in_sitemap : Bool
deriving DecidableEq, Repr

/-- Assembly of one `results` entry from the extracted metadata and the
sitemap path set: `in_sitemap` is `urlparse(link).path in
sitemap_relative_paths`. -/
def mkPageResult (link : Url) (md : MetaData)
    (sitemap_relative_paths : List String) : PageResult :=
  { link := link
    title := md.title
    title_length := md.title_length
    meta_description := md.meta_description
    meta_description_length := md.meta_description_length
    h1_title := md.h1_title
    canonical_url := md.canonical_url
    breadcrumbs := md.breadcrumbs_text
    in_sitemap := decide (link.path ∈ sitemap_relative_paths) }

/-- The `for link_tuple in clickable_links` loop of
`scan_and_check_links` (source lines 232–247): for each edge target not
already keyed in `results`, run `get_meta_data` (whose transport error
propagates) and insert a new entry; targets already present are
skipped. The dict is modelled as the insertion-ordered list of its
values, keyed by the `link` field. -/
def build_results (net : Net) (sitemap_relative_paths : List String) :
    List (Url × Url) → List PageResult → Except String (List PageResult)
  | [], results => .ok results
  | link_tuple :: rest, results =>
    let link := link_tuple.1
    if results.any (fun r => r.link = link) then
      build_results net sitemap_relative_paths rest results
    else
      match get_meta_data net link with
      | .error e => .error e
      | .ok md =>
        build_results net sitemap_relative_paths rest
          (results ++ [mkPageResult link md sitemap_relative_paths])

/-- `f"{url}"`: the textual URL used in the error messages of
`scan_and_check_links`. -/
def urlString (u : Url) : String :=
  u.scheme ++ "://" ++ u.host ++ u.path

/-- What `scan_and_check_links` returns: an error string, or the pair
`(list(results.values()), broken_links)`. -/
inductive ScanResult where
  | error (msg : String)
  | ok (results : List PageResult)
      (broken_links : List (Url × Url × StatusOutcome))
deriving DecidableEq, Repr

/-- `scan_and_check_links(url, max_depth)` (source lines 192–252): fetch
the seed (transport error or non-200 yields the top-level error
string), crawl, validate all collected edges, resolve sitemap paths,
extract metadata for the seed and then for each edge target not yet
present, and return the results with the broken-link list. A
`requests.RequestException` raised anywhere inside — in this model only
possible from `get_meta_data` — is caught by the outer handler and
becomes `f"Error: {e}"`. -/
def scan_and_check_links (net : Net) (url : Url) (max_depth : Nat) :
    ScanResult :=
  match net url with
  | .err e => .error ("Error: " ++ e)
  | .ok response =>
    if response.status ≠ 200 then
      .error ("Error: Unable to access " ++ urlString url)
    else
      let clickable_links :=
        (extract_clickable_links_recursive net url max_depth []).1
      let broken_links := check_for_error_links net clickable_links
      let sitemap_urls := get_sitemap_urls net url
      let sitemap_relative_paths := sitemap_urls.map Url.path
      match get_meta_data net url with
      | .error e => .error ("Error: " ++ e)
      | .ok md =>
        let seed_result := mkPageResult url md sitemap_relative_paths
        match build_results net sitemap_relative_paths clickable_links
            [seed_result] with
        | .error e => .error ("Error: " ++ e)
        | .ok results => .ok results broken_links

/-!
Instrumented variants. They mirror `extract_clickable_links_recursive`
and `build_results` line for line while additionally counting, in the
extra `Nat` component, the number of `requests.get` calls made during
traversal (respectively the number of `get_meta_data` calls made while
assembling the results). Lemmas below prove they agree with the
uninstrumented functions on the other components.
-/

/-- The recursion loop, instrumented with a fetch counter. -/
def extract_links_loopN
    (f : Url → List Url → (List (Url × Url) × List Url) × Nat) :
    List (Url × Url) → List Url → (List (Url × Url) × List Url) × Nat
  | [], visited => (([], visited), 0)
  | (internal_link, _parent) :: rest, visited =>
    let r := f internal_link visited
    let next := extract_links_loopN f rest r.1.2
    ((r.1.1 ++ next.1.1, next.1.2), r.2 + next.2)

/-- `extract_clickable_links_recursive`, instrumented with the number
of `requests.get` calls performed (one per non-skipped invocation). -/
def extract_clickable_links_recursiveN (net : Net) (base_url : Url)
    (max_depth : Nat) (visited : List Url) :
    (List (Url × Url) × List Url) × Nat :=
  if base_url ∈ visited then (([], visited), 0)
  else
    let visited1 := base_url :: visited
    match net base_url with
    | .err _ => (([], visited1), 1)
    | .ok response =>
      if response.status = 200 then
        let links := collect_page_links base_url visited1 response.hrefs
        match max_depth with
        | 0 => ((links, visited1), 1)
        | d + 1 =>
          let more := extract_links_loopN
            (fun u v => extract_clickable_links_recursiveN net u d v)
            links visited1
          ((links ++ more.1.1, more.1.2), 1 + more.2)
      else (([], visited1), 1)

/-- `build_results`, instrumented with the number of `get_meta_data`
calls performed (one per edge target not already present). -/
def build_resultsN (net : Net) (sitemap_relative_paths : List String) :
    List (Url × Url) → List PageResult →
      Except String (List PageResult) × Nat
  | [], results => (.ok results, 0)
  | link_tuple :: rest, results =>
    let link := link_tuple.1
    if results.any (fun r => r.link = link) then
      build_resultsN net sitemap_relative_paths rest results
    else
      match get_meta_data net link with
      | .error e => (.error e, 1)
      | .ok md =>
        let next := build_resultsN net sitemap_relative_paths rest
          (results ++ [mkPageResult link md sitemap_relative_paths])
        (next.1, 1 + next.2)

/-- Number of `get_meta_data` calls made by a run of
`scan_and_check_links`, computed along the same control flow. -/
def scan_meta_calls (net : Net) (url : Url) (max_depth : Nat) : Nat :=
  match net url with
  | .err _ => 0
  | .ok response =>
    if response.status ≠ 200 then 0
    else
      let clickable_links :=
        (extract_clickable_links_recursive net url max_depth []).1
      let sitemap_relative_paths := (get_sitemap_urls net url).map Url.path
      match get_meta_data net url with
      | .error _ => 1
      | .ok md =>
        1 + (build_resultsN net sitemap_relative_paths clickable_links
          [mkPageResult url md sitemap_relative_paths]).2

/-!  Concrete fixtures used by counterexamples and witnesses.  -/

/-- A seed URL. -/
def seedUrl : Url := ⟨"http", "example.com", "/"⟩

/-- A same-host page URL. -/
def pageA : Url := ⟨"http", "example.com", "/a"⟩

/-- Another same-host page URL. -/
def pageB : Url := ⟨"http", "example.com", "/b"⟩

/-- A page with a given status and `<a href>` list and no other
content. -/
def emptyPage (status : Nat) (hrefs : List RawHref) : Page :=
  { status := status
    hrefs := hrefs
    title := none
    metaDescription := none
    h1 := none
    canonical := none
    jsonLd := []
    breadcrumbLis := none
    sitemapLocs := [] }

/-- A network where the seed answers 200 and links to `/a`, while every
other URL — `/a` included — raises a transport error. -/
def net1 : Net := fun u =>
  if u = seedUrl then .ok (emptyPage 200 [⟨false, .relative "/a"⟩])
  else if u = pageA then .err "boom"
  else .err "offline"

/-- A page carrying one well-formed JSON-LD `BreadcrumbList` whose three
items appear in document order B, A, C while their `position` fields
say 2, 1, 3. -/
def crumbPage : Page :=
  { status := 200
    hrefs := []
    title := none
    metaDescription := none
    h1 := none
    canonical := none
    jsonLd := [.parsed (some "BreadcrumbList")
      [⟨some 2, some "B", some "urlB"⟩,
       ⟨some 1, some "A", some "urlA"⟩,
       ⟨some 3, some "C", some "urlC"⟩]]
    breadcrumbLis := none
    sitemapLocs := [] }

/-- A network serving only `crumbPage` at the seed. -/
def net3 : Net := fun u =>
  if u = seedUrl then .ok crumbPage else .err "offline"

/-- A page whose body contains the same hyperlink to `/a` twice. -/
def dupPage : Page :=
  emptyPage 200 [⟨false, .relative "/a"⟩, ⟨false, .relative "/a"⟩]

/-- A network serving `dupPage` at the seed and failing elsewhere. -/
def net7 : Net := fun u =>
  if u = seedUrl then .ok dupPage else .err "offline"

/-- A network where the seed answers 200 with an empty page and every
other URL — all sitemap probes included — raises a transport error. -/
def net8 : Net := fun u =>
  if u = seedUrl then .ok (emptyPage 200 []) else .err "offline"

/-- The single results entry a scan of `net8` produces. -/
def seedEntry8 : PageResult :=
  { link := seedUrl
    title := none
    title_length := 0
    meta_description := none
    meta_description_length := 0
    h1_title := none
    canonical_url := none
    breadcrumbs := none
    in_sitemap := false }

/-- A network whose seed links to itself and to `/a`, while `/a` links
back to the seed. -/
def net10 : Net := fun u =>
  if u = seedUrl then
    .ok (emptyPage 200 [⟨false, .relative "/"⟩, ⟨false, .relative "/a"⟩])
  else if u = pageA then
    .ok (emptyPage 200 [⟨false, .relative "/"⟩])
  else .err "offline"

/-!  Helper lemmas about the crawl engine.  -/

/-- One-step unfolding of `extract_clickable_links_recursive`. -/
theorem extract_unfold (net : Net) (b : Url) (d : Nat) (v : List Url) :
    extract_clickable_links_recursive net b d v =
      if b ∈ v then ([], v)
      else
        match net b with
        | .err _ => ([], b :: v)
        | .ok response =>
          if response.status = 200 then
            let links := collect_page_links b (b :: v) response.hrefs
            match d with
            | 0 => (links, b :: v)
            | d' + 1 =>
              let more := extract_links_loop
                (fun u v' => extract_clickable_links_recursive net u d' v')
                links (b :: v)
              (links ++ more.1, more.2)
          else ([], b :: v) := by
  rw [extract_clickable_links_recursive]

/-- One-step unfolding of the instrumented crawler. -/
theorem extractN_unfold (net : Net) (b : Url) (d : Nat) (v : List Url) :
    extract_clickable_links_recursiveN net b d v =
      if b ∈ v then (([], v), 0)
      else
        match net b with
        | .err _ => (([], b :: v), 1)
        | .ok response =>
          if response.status = 200 then
            let links := collect_page_links b (b :: v) response.hrefs
            match d with
            | 0 => ((links, b :: v), 1)
            | d' + 1 =>
              let more := extract_links_loopN
                (fun u v' => extract_clickable_links_recursiveN net u d' v')
                links (b :: v)
              ((links ++ more.1.1, more.1.2), 1 + more.2)
          else (([], b :: v), 1) := by
  rw [extract_clickable_links_recursiveN]

/-- Membership in the per-page link collection: exactly the hash-free
hrefs of the page that resolve to the page's own host and are not in
the visited set, recorded with the page as parent. -/
theorem mem_collect_page_links {base_url : Url} {visited : List Url}
    {hrefs : List RawHref} {tp : Url × Url} :
    tp ∈ collect_page_links base_url visited hrefs ↔
      ∃ a ∈ hrefs, a.hasHash = false ∧ urljoin base_url a.target = tp.1 ∧
        tp.1.host = base_url.host ∧ tp.1 ∉ visited ∧ tp.2 = base_url := by
  simp only [collect_page_links, List.mem_filterMap]
  constructor
  · rintro ⟨a, ha, hsome⟩
    by_cases hh : a.hasHash
    · simp [hh] at hsome
    · simp only [hh, if_false, Bool.false_eq_true] at hsome
      split at hsome
      · rename_i hcond
        cases hsome
        exact ⟨a, ha, by simpa using hh, rfl, hcond.1, hcond.2, rfl⟩
      · cases hsome
  · rintro ⟨a, ha, hh, hres, hhost, hnv, hpar⟩
    refine ⟨a, ha, ?_⟩
    simp only [hh, if_false, Bool.false_eq_true]
    rw [hres]
    rw [if_pos ⟨hhost, hnv⟩]
    cases tp
    simp only at hpar
    rw [hpar]

/-- The recursion loop never removes URLs from the visited set. -/
theorem extract_links_loop_visited_mono
    (f : Url → List Url → List (Url × Url) × List Url)
    (hf : ∀ u v, v ⊆ (f u v).2) :
    ∀ (pending : List (Url × Url)) (visited : List Url),
      visited ⊆ (extract_links_loop f pending visited).2 := by
  intro pending
  induction pending with
  | nil => intro visited; simp [extract_links_loop]
  | cons hd tl ih =>
    intro visited
    obtain ⟨u, p⟩ := hd
    simp only [extract_links_loop]
    exact (hf u visited).trans (ih _)

/-- The crawler never removes URLs from the visited set. -/
theorem extract_visited_mono (net : Net) :
    ∀ (d : Nat) (b : Url) (v : List Url),
      v ⊆ (extract_clickable_links_recursive net b d v).2 := by
  intro d
  induction d with
  | zero =>
    intro b v
    rw [extract_unfold]
    split
    · exact fun x hx => hx
    · cases hnet : net b with
      | err e => simp
      | ok response =>
        simp only
        split
        · exact fun x hx => List.mem_cons_of_mem _ hx
        · exact fun x hx => List.mem_cons_of_mem _ hx
  | succ d ih =>
    intro b v
    rw [extract_unfold]
    split
    · exact fun x hx => hx
    · cases hnet : net b with
      | err e => simp
      | ok response =>
        simp only
        split
        · refine fun x hx => extract_links_loop_visited_mono _ (fun u v' => ih u v') _ _ ?_
          exact List.mem_cons_of_mem _ hx
        · exact fun x hx => List.mem_cons_of_mem _ hx

/-- Hosts of edges produced by the recursion loop, given that every
pending target has the ambient host and that the recursive call
preserves hosts. -/
theorem extract_links_loop_host
    (f : Url → List Url → List (Url × Url) × List Url) (h0 : String)
    (hf : ∀ u v, u.host = h0 →
      ∀ tp ∈ (f u v).1, tp.1.host = h0 ∧ tp.2.host = h0) :
    ∀ (pending : List (Url × Url)) (visited : List Url),
      (∀ tp ∈ pending, tp.1.host = h0) →
      ∀ tp ∈ (extract_links_loop f pending visited).1,
        tp.1.host = h0 ∧ tp.2.host = h0 := by
  intro pending
  induction pending with
  | nil => intro v _ tp htp; simp [extract_links_loop] at htp
  | cons hd tl ih =>
    intro v hpend tp htp
    obtain ⟨u, p⟩ := hd
    simp only [extract_links_loop, List.mem_append] at htp
    rcases htp with h | h
    · exact hf u v (hpend (u, p) (by simp)) tp h
    · exact ih _ (fun x hx => hpend x (List.mem_cons_of_mem _ hx)) tp h

/-- Every edge produced by a crawl invocation has both its target and
its parent on the host of the URL the invocation started from. -/
theorem extract_host (net : Net) :
    ∀ (d : Nat) (b : Url) (v : List Url) (tp : Url × Url),
      tp ∈ (extract_clickable_links_recursive net b d v).1 →
      tp.1.host = b.host ∧ tp.2.host = b.host := by
  intro d
  induction d with
  | zero =>
    intro b v tp htp
    rw [extract_unfold] at htp
    split at htp
    · simp at htp
    · cases hnet : net b with
      | err e => rw [hnet] at htp; simp at htp
      | ok response =>
        rw [hnet] at htp
        simp only at htp
        split at htp
        · simp only at htp
          obtain ⟨a, -, -, -, hhost, -, hpar⟩ :=
            mem_collect_page_links.mp htp
          exact ⟨hhost, by rw [hpar]⟩
        · simp at htp
  | succ d ih =>
    intro b v tp htp
    rw [extract_unfold] at htp
    split at htp
    · simp at htp
    · cases hnet : net b with
      | err e => rw [hnet] at htp; simp at htp
      | ok response =>
        rw [hnet] at htp
        simp only at htp
        split at htp
        · simp only [List.mem_append] at htp
          rcases htp with h | h
          · obtain ⟨a, -, -, -, hhost, -, hpar⟩ :=
              mem_collect_page_links.mp h
            exact ⟨hhost, by rw [hpar]⟩
          · refine extract_links_loop_host _ b.host ?_ _ _ ?_ tp h
            · intro u v' hu tp' htp'
              obtain ⟨h1, h2⟩ := ih u v' tp' htp'
              exact ⟨h1.trans hu, h2.trans hu⟩
            · intro tp' htp'
              obtain ⟨a, -, -, -, hhost, -, -⟩ :=
                mem_collect_page_links.mp htp'
              exact hhost
        · simp at htp

/-- Freshness through the recursion loop: no produced edge targets a URL
of `S` when `S` is contained in the visited set handed to the loop. -/
theorem extract_links_loop_fresh
    (f : Url → List Url → List (Url × Url) × List Url)
    (hmono : ∀ u v, v ⊆ (f u v).2)
    (hf : ∀ u v tp, tp ∈ (f u v).1 → tp.1 ∉ v)
    (S : List Url) :
    ∀ (pending : List (Url × Url)) (visited : List Url),
      S ⊆ visited →
      ∀ tp ∈ (extract_links_loop f pending visited).1, tp.1 ∉ S := by
  intro pending
  induction pending with
  | nil => intro v _ tp htp; simp [extract_links_loop] at htp
  | cons hd tl ih =>
    intro v hS tp htp
    obtain ⟨u, p⟩ := hd
    simp only [extract_links_loop, List.mem_append] at htp
    rcases htp with h | h
    · exact fun hmem => hf u v tp h (hS hmem)
    · exact ih _ (hS.trans (hmono u v)) tp h

/-- No edge produced by a crawl invocation targets the URL the
invocation started from, nor any URL already visited beforehand. -/
theorem extract_target_fresh (net : Net) :
    ∀ (d : Nat) (b : Url) (v : List Url) (tp : Url × Url),
      tp ∈ (extract_clickable_links_recursive net b d v).1 →
      tp.1 ∉ (b :: v) := by
  intro d
  induction d with
  | zero =>
    intro b v tp htp
    rw [extract_unfold] at htp
    split at htp
    · simp at htp
    · cases hnet : net b with
      | err e => rw [hnet] at htp; simp at htp
      | ok response =>
        rw [hnet] at htp
        simp only at htp
        split at htp
        · simp only at htp
          obtain ⟨a, -, -, -, -, hnv, -⟩ := mem_collect_page_links.mp htp
          exact hnv
        · simp at htp
  | succ d ih =>
    intro b v tp htp
    rw [extract_unfold] at htp
    split at htp
    · simp at htp
    · cases hnet : net b with
      | err e => rw [hnet] at htp; simp at htp
      | ok response =>
        rw [hnet] at htp
        simp only at htp
        split at htp
        · simp only [List.mem_append] at htp
          rcases htp with h | h
          · obtain ⟨a, -, -, -, -, hnv, -⟩ := mem_collect_page_links.mp h
            exact hnv
          · refine extract_links_loop_fresh _ ?_ ?_ (b :: v) _ _
              (fun x hx => hx) tp h
            · exact fun u v' => extract_visited_mono net d u v'
            · intro u v' tp' htp' hmem
              exact ih u v' tp' htp' (List.mem_cons_of_mem _ hmem)
        · simp at htp

/-- The instrumented loop agrees with the loop on edges and visited. -/
theorem extract_links_loopN_agree
    (f : Url → List Url → List (Url × Url) × List Url)
    (fN : Url → List Url → (List (Url × Url) × List Url) × Nat)
    (hf : ∀ u v, (fN u v).1 = f u v) :
    ∀ (pending : List (Url × Url)) (visited : List Url),
      (extract_links_loopN fN pending visited).1 =
        extract_links_loop f pending visited := by
  intro pending
  induction pending with
  | nil => intro v; rfl
  | cons hd tl ih =>
    intro v
    obtain ⟨u, p⟩ := hd
    simp only [extract_links_loopN, extract_links_loop, hf, ih]

/-- The instrumented crawler agrees with
`extract_clickable_links_recursive` on edges and visited. -/
theorem extractN_agree (net : Net) :
    ∀ (d : Nat) (b : Url) (v : List Url),
      (extract_clickable_links_recursiveN net b d v).1 =
        extract_clickable_links_recursive net b d v := by
  intro d
  induction d with
  | zero =>
    intro b v
    rw [extract_unfold, extractN_unfold]
    split
    · rfl
    · cases hnet : net b <;> simp only
      split <;> rfl
  | succ d ih =>
    intro b v
    rw [extract_unfold, extractN_unfold]
    split
    · rfl
    · cases hnet : net b <;> simp only
      split
      · rw [extract_links_loopN_agree
          (fun u v' => extract_clickable_links_recursive net u d v')
          (fun u v' => extract_clickable_links_recursiveN net u d v')
          (fun u v' => ih u v')]
      · rfl

/-- Fetch counting through the loop: the visited set grows by exactly
the number of fetches made. -/
theorem extract_links_loopN_count
    (f : Url → List Url → List (Url × Url) × List Url)
    (fN : Url → List Url → (List (Url × Url) × List Url) × Nat)
    (hf : ∀ u v, (fN u v).1 = f u v)
    (hcount : ∀ u v, (f u v).2.length = v.length + (fN u v).2) :
    ∀ (pending : List (Url × Url)) (visited : List Url),
      (extract_links_loop f pending visited).2.length =
        visited.length + (extract_links_loopN fN pending visited).2 := by
  intro pending
  induction pending with
  | nil => intro v; rfl
  | cons hd tl ih =>
    intro v
    obtain ⟨u, p⟩ := hd
    simp only [extract_links_loopN, extract_links_loop, hf]
    rw [ih, hcount]
    omega

/-- Fetch counting for the crawler: each invocation grows the visited
set by exactly the number of `requests.get` calls it makes. -/
theorem extractN_count (net : Net) :
    ∀ (d : Nat) (b : Url) (v : List Url),
      (extract_clickable_links_recursive net b d v).2.length =
        v.length + (extract_clickable_links_recursiveN net b d v).2 := by
  intro d
  induction d with
  | zero =>
    intro b v
    rw [extract_unfold, extractN_unfold]
    split
    · rfl
    · cases hnet : net b with
      | err e => simp [List.length_cons]
      | ok response =>
        simp only
        split <;> simp [List.length_cons]
  | succ d ih =>
    intro b v
    rw [extract_unfold, extractN_unfold]
    split
    · rfl
    · cases hnet : net b with
      | err e => simp [List.length_cons]
      | ok response =>
        simp only
        split
        · simp only
          rw [extract_links_loopN_count
            (fun u v' => extract_clickable_links_recursive net u d v')
            (fun u v' => extract_clickable_links_recursiveN net u d v')
            (fun u v' => extractN_agree net d u v')
            (fun u v' => ih u v')]
          simp [List.length_cons]
          omega
        · simp [List.length_cons]

/-- The loop preserves freedom from duplicates of the visited set. -/
theorem extract_links_loop_nodup
    (f : Url → List Url → List (Url × Url) × List Url)
    (hf : ∀ u v, v.Nodup → (f u v).2.Nodup) :
    ∀ (pending : List (Url × Url)) (visited : List Url),
      visited.Nodup → (extract_links_loop f pending visited).2.Nodup := by
  intro pending
  induction pending with
  | nil => intro v hv; exact hv
  | cons hd tl ih =>
    intro v hv
    obtain ⟨u, p⟩ := hd
    simp only [extract_links_loop]
    exact ih _ (hf u v hv)

/-- The visited set accumulated by the crawler never holds a URL twice:
a URL is fetched at most once per crawl run. -/
theorem extract_visited_nodup (net : Net) :
    ∀ (d : Nat) (b : Url) (v : List Url),
      v.Nodup → (extract_clickable_links_recursive net b d v).2.Nodup := by
  intro d
  induction d with
  | zero =>
    intro b v hv
    rw [extract_unfold]
    split
    · exact hv
    · next hb =>
      cases hnet : net b with
      | err e => exact List.nodup_cons.mpr ⟨hb, hv⟩
      | ok response =>
        simp only
        split
        · exact List.nodup_cons.mpr ⟨hb, hv⟩
        · exact List.nodup_cons.mpr ⟨hb, hv⟩
  | succ d ih =>
    intro b v hv
    rw [extract_unfold]
    split
    · exact hv
    · next hb =>
      cases hnet : net b with
      | err e => exact List.nodup_cons.mpr ⟨hb, hv⟩
      | ok response =>
        simp only
        split
        · exact extract_links_loop_nodup _ (fun u v' => ih u v') _ _
            (List.nodup_cons.mpr ⟨hb, hv⟩)
        · exact List.nodup_cons.mpr ⟨hb, hv⟩

/-- The `link` key of an assembled results entry. -/
theorem mkPageResult_link (link : Url) (md : MetaData) (sp : List String) :
    (mkPageResult link md sp).link = link := rfl

/-- The instrumented results loop agrees with `build_results`. -/
theorem build_resultsN_agree (net : Net) (sp : List String) :
    ∀ (pending : List (Url × Url)) (results : List PageResult),
      (build_resultsN net sp pending results).1 =
        build_results net sp pending results := by
  intro pending
  induction pending with
  | nil => intro results; rfl
  | cons hd tl ih =>
    intro results
    simp only [build_resultsN, build_results]
    split
    · exact ih results
    · cases hmd : get_meta_data net hd.1 with
      | error e => rfl
      | ok md => simp only [ih]

/-- On success, the number of `get_meta_data` calls made by the results
loop equals the number of entries it added. -/
theorem build_resultsN_count (net : Net) (sp : List String) :
    ∀ (pending : List (Url × Url)) (results out : List PageResult),
      build_results net sp pending results = .ok out →
      out.length = results.length + (build_resultsN net sp pending results).2 := by
  intro pending
  induction pending with
  | nil =>
    intro results out h
    cases h
    rfl
  | cons hd tl ih =>
    intro results out h
    simp only [build_results, build_resultsN] at h ⊢
    split at h
    · next hany =>
      rw [if_pos hany]
      exact ih results out h
    · next hany =>
      rw [if_neg hany]
      cases hmd : get_meta_data net hd.1 with
      | error e => rw [hmd] at h; cases h
      | ok md =>
        rw [hmd] at h
        simp only
        have := ih _ out h
        simp [List.length_append] at this
        omega

/-- The results loop only ever appends entries. -/
theorem build_results_sub (net : Net) (sp : List String) :
    ∀ (pending : List (Url × Url)) (results out : List PageResult),
      build_results net sp pending results = .ok out →
      ∀ r ∈ results, r ∈ out := by
  intro pending
  induction pending with
  | nil =>
    intro results out h
    cases h
    exact fun r hr => hr
  | cons hd tl ih =>
    intro results out h
    simp only [build_results] at h
    split at h
    · exact ih results out h
    · cases hmd : get_meta_data net hd.1 with
      | error e => rw [hmd] at h; cases h
      | ok md =>
        rw [hmd] at h
        intro r hr
        exact ih _ out h r (List.mem_append_left _ hr)

/-- The results mapping never holds two entries with the same URL key:
the loop inserts only targets not already present. -/
theorem build_results_keys_nodup (net : Net) (sp : List String) :
    ∀ (pending : List (Url × Url)) (results out : List PageResult),
      build_results net sp pending results = .ok out →
      (results.map PageResult.link).Nodup →
      (out.map PageResult.link).Nodup := by
  intro pending
  induction pending with
  | nil =>
    intro results out h hn
    cases h
    exact hn
  | cons hd tl ih =>
    intro results out h hn
    simp only [build_results] at h
    split at h
    · exact ih results out h hn
    · next hany =>
      cases hmd : get_meta_data net hd.1 with
      | error e => rw [hmd] at h; cases h
      | ok md =>
        rw [hmd] at h
        refine ih _ out h ?_
        have hnot : hd.1 ∉ results.map PageResult.link := by
          intro hmem
          obtain ⟨r, hr, hrl⟩ := List.mem_map.mp hmem
          exact hany (List.any_eq_true.mpr ⟨r, hr, by simp [hrl]⟩)
        simp only [List.map_append, List.map_cons, List.map_nil,
          mkPageResult_link]
        rw [List.nodup_append]
        exact ⟨hn, List.nodup_singleton _, by
          intro x hx hx'
          simp only [List.mem_singleton] at hx'
          exact hnot (hx' ▸ hx)⟩

/-- Any property of assembled entries that holds of every freshly built
entry is an invariant of the results loop. -/
theorem build_results_invariant (net : Net) (sp : List String)
    (P : PageResult → Prop)
    (hP : ∀ link md, get_meta_data net link = .ok md →
      P (mkPageResult link md sp)) :
    ∀ (pending : List (Url × Url)) (results out : List PageResult),
      build_results net sp pending results = .ok out →
      (∀ r ∈ results, P r) → ∀ r ∈ out, P r := by
  intro pending
  induction pending with
  | nil =>
    intro results out h hres
    cases h
    exact hres
  | cons hd tl ih =>
    intro results out h hres
    simp only [build_results] at h
    split at h
    · exact ih results out h hres
    · cases hmd : get_meta_data net hd.1 with
      | error e => rw [hmd] at h; cases h
      | ok md =>
        rw [hmd] at h
        refine ih _ out h ?_
        intro r hr
        rcases List.mem_append.mp hr with h' | h'
        · exact hres r h'
        · simp only [List.mem_singleton] at h'
          exact h' ▸ hP hd.1 md hmd

/-- A failing results loop fails because `get_meta_data` raised on some
pending edge's target. -/
theorem build_results_error (net : Net) (sp : List String) :
    ∀ (pending : List (Url × Url)) (results : List PageResult)
      (e : String),
      build_results net sp pending results = .error e →
      ∃ lp ∈ pending, get_meta_data net lp.1 = .error e := by
  intro pending
  induction pending with
  | nil => intro results e h; cases h
  | cons hd tl ih =>
    intro results e h
    simp only [build_results] at h
    split at h
    · obtain ⟨lp, hlp, hm⟩ := ih results e h
      exact ⟨lp, List.mem_cons_of_mem _ hlp, hm⟩
    · cases hmd : get_meta_data net hd.1 with
      | error e' =>
        rw [hmd] at h
        cases h
        exact ⟨hd, List.mem_cons_self _ _, hmd⟩
      | ok md =>
        rw [hmd] at h
        obtain ⟨lp, hlp, hm⟩ := ih _ e h
        exact ⟨lp, List.mem_cons_of_mem _ hlp, hm⟩

/-- Membership in the sitemap accumulation fold. -/
theorem mem_get_sitemap_urls_aux (net : Net) (base_url : Url) :
    ∀ (paths : List String) (acc : List Url) (u : Url),
      u ∈ paths.foldl
          (fun all_urls sitemap_path =>
            let sitemap_url := urljoin base_url (.relative sitemap_path)
            match net sitemap_url with
            | .err _ => all_urls
            | .ok response =>
              if response.status = 200 then
                all_urls ++
                  response.sitemapLocs.map (fun loc => urljoin base_url loc)
              else all_urls)
          acc ↔
        u ∈ acc ∨ ∃ sp ∈ paths, ∃ response,
          net (urljoin base_url (.relative sp)) = .ok response ∧
          response.status = 200 ∧
          ∃ loc ∈ response.sitemapLocs, urljoin base_url loc = u := by
  intro paths
  induction paths with
  | nil => intro acc u; simp
  | cons hd tl ih =>
    intro acc u
    simp only [List.foldl_cons]
    cases hnet : net (urljoin base_url (.relative hd)) with
    | err e =>
      simp only [hnet]
      rw [ih]
      constructor
      · rintro (h | h)
        · exact Or.inl h
        · obtain ⟨sp, hsp, rest⟩ := h
          exact Or.inr ⟨sp, List.mem_cons_of_mem _ hsp, rest⟩
      · rintro (h | h)
        · exact Or.inl h
        · obtain ⟨sp, hsp, response, hresp, rest⟩ := h
          rcases List.mem_cons.mp hsp with rfl | hsp'
          · rw [hnet] at hresp; cases hresp
          · exact Or.inr ⟨sp, hsp', response, hresp, rest⟩
    | ok response =>
      simp only [hnet]
      by_cases hst : response.status = 200
      · rw [if_pos hst, ih]
        constructor
        · rintro (h | h)
          · rcases List.mem_append.mp h with h' | h'
            · exact Or.inl h'
            · obtain ⟨loc, hloc, hres⟩ := List.mem_map.mp h'
              exact Or.inr ⟨hd, List.mem_cons_self _ _, response, hnet,
                hst, loc, hloc, hres⟩
          · obtain ⟨sp, hsp, rest⟩ := h
            exact Or.inr ⟨sp, List.mem_cons_of_mem _ hsp, rest⟩
        · rintro (h | h)
          · exact Or.inl (List.mem_append_left _ h)
          · obtain ⟨sp, hsp, response', hresp, hst', loc, hloc, hres⟩ := h
            rcases List.mem_cons.mp hsp with rfl | hsp'
            · rw [hnet] at hresp
              cases hresp
              exact Or.inl (List.mem_append_right _
                (List.mem_map.mpr ⟨loc, hloc, hres⟩))
            · exact Or.inr ⟨sp, hsp', response', hresp, hst', loc, hloc, hres⟩
      · rw [if_neg hst, ih]
        constructor
        · rintro (h | h)
          · exact Or.inl h
          · obtain ⟨sp, hsp, rest⟩ := h
            exact Or.inr ⟨sp, List.mem_cons_of_mem _ hsp, rest⟩
        · rintro (h | h)
          · exact Or.inl h
          · obtain ⟨sp, hsp, response', hresp, hst', rest⟩ := h
            rcases List.mem_cons.mp hsp with rfl | hsp'
            · rw [hnet] at hresp
              cases hresp
              exact absurd hst' hst
            · exact Or.inr ⟨sp, hsp', response', hresp, hst', rest⟩

/-- Membership in the collected sitemap URL set: exactly the locations
declared by a conventional probe that answered 200, resolved against
the base URL. -/
theorem mem_get_sitemap_urls (net : Net) (base_url : Url) (u : Url) :
    u ∈ get_sitemap_urls net base_url ↔
      ∃ sp ∈ sitemap_paths, ∃ response,
        net (urljoin base_url (.relative sp)) = .ok response ∧
        response.status = 200 ∧
        ∃ loc ∈ response.sitemapLocs, urljoin base_url loc = u := by
  rw [get_sitemap_urls, mem_get_sitemap_urls_aux]
  simp

/-- The broken-link fold with an arbitrary starting accumulator is the
accumulator followed by the per-edge classification. -/
theorem check_for_error_links_aux (net : Net) :
    ∀ (links : List (Url × Url)) (acc : List (Url × Url × StatusOutcome)),
      links.foldl
        (fun broken_links lp =>
          match net lp.1 with
          | .err e =>
            broken_links ++
              [(lp.1, lp.2, .requestError ("Request error: " ++ e))]
          | .ok response =>
            if response.status = 404 then
              broken_links ++ [(lp.1, lp.2, .code 404)]
            else if response.status ≠ 200 then
              broken_links ++ [(lp.1, lp.2, .code response.status)]
            else broken_links)
        acc =
      acc ++ links.filterMap (fun lp =>
        match net lp.1 with
        | .err e =>
          some (lp.1, lp.2, .requestError ("Request error: " ++ e))
        | .ok response =>
          if response.status = 404 then some (lp.1, lp.2, .code 404)
          else if response.status ≠ 200 then
            some (lp.1, lp.2, .code response.status)
          else none) := by
  intro links
  induction links with
  | nil => intro acc; simp
  | cons hd tl ih =>
    intro acc
    simp only [List.foldl_cons, List.filterMap_cons]
    cases hnet : net hd.1 with
    | err e => rw [ih]; simp
    | ok response =>
      by_cases h404 : response.status = 404
      · simp only [if_pos h404]
        rw [ih]
        simp
      · by_cases h200 : response.status = 200
        · simp only [if_neg h404, h200]
          rw [ih]
          simp
        · simp only [if_neg h404, if_neg h200]
          rw [ih]
          simp [h200, List.append_assoc]

/-- `get_meta_data` fails exactly when the fetch of its URL raises. -/
theorem get_meta_data_error_iff (net : Net) (link : Url) (e : String) :
    get_meta_data net link = .error e ↔ net link = .err e := by
  constructor
  · intro h
    cases hnet : net link with
    | err e' =>
      rw [get_meta_data, hnet] at h
      cases h
      rfl
    | ok pg =>
      rw [get_meta_data, hnet] at h
      simp at h
  · intro h
    rw [get_meta_data, h]

/-- `get_meta_data` succeeds whenever the fetch answers. -/
theorem get_meta_data_ok (net : Net) (link : Url) (pg : Page)
    (h : net link = .ok pg) : ∃ md, get_meta_data net link = .ok md := by
  rw [get_meta_data, h]
  exact ⟨_, rfl⟩

/-- A successful run of `scan_and_check_links`, decomposed: the seed
answered 200, its metadata extraction succeeded, the results were
assembled by the results loop from the seed entry and the crawled
edges, and the broken links are the validator's output on those
edges. -/
theorem scan_ok_inv (net : Net) (url : Url) (d : Nat)
    (results : List PageResult)
    (broken : List (Url × Url × StatusOutcome))
    (h : scan_and_check_links net url d = .ok results broken) :
    ∃ response md, net url = .ok response ∧ response.status = 200 ∧
      get_meta_data net url = .ok md ∧
      build_results net ((get_sitemap_urls net url).map Url.path)
        (extract_clickable_links_recursive net url d []).1
        [mkPageResult url md ((get_sitemap_urls net url).map Url.path)]
        = .ok results ∧
      broken = check_for_error_links net
        (extract_clickable_links_recursive net url d []).1 := by
  rw [scan_and_check_links] at h
  split at h
  · cases h
  · next response hnet =>
    split at h
    · cases h
    · next hst =>
      split at h
      · cases h
      · next md hmd =>
        dsimp only at h
        split at h
        · cases h
        · next results' hb =>
          cases h
          exact ⟨response, md, hnet, by simpa using hst, hmd, hb, rfl⟩

/-- An erroring run of `scan_and_check_links`, decomposed: the seed
fetch raised, or the seed answered non-200, or a `get_meta_data` fetch
of some crawled edge's target raised. -/
theorem scan_error_inv (net : Net) (url : Url) (d : Nat) (s : String)
    (h : scan_and_check_links net url d = .error s) :
    (∃ e, net url = .err e ∧ s = "Error: " ++ e) ∨
    (∃ response, net url = .ok response ∧ response.status ≠ 200 ∧
      s = "Error: Unable to access " ++ urlString url) ∨
    (∃ link p e,
      (link, p) ∈ (extract_clickable_links_recursive net url d []).1 ∧
      net link = .err e ∧ s = "Error: " ++ e) := by
  rw [scan_and_check_links] at h
  split at h
  · next e hnet =>
    cases h
    exact Or.inl ⟨e, hnet, rfl⟩
  · next response hnet =>
    split at h
    · next hst =>
      cases h
      exact Or.inr (Or.inl ⟨response, hnet, hst, rfl⟩)
    · next hst =>
      split at h
      · next e hmd =>
        rw [get_meta_data_error_iff] at hmd
        rw [hmd] at hnet
        cases hnet
      · next md hmd =>
        dsimp only at h
        split at h
        · next e hb =>
          cases h
          obtain ⟨lp, hlp, hm⟩ := build_results_error _ _ _ _ _ hb
          exact Or.inr (Or.inr ⟨lp.1, lp.2, e, hlp,
            (get_meta_data_error_iff _ _ _).mp hm, rfl⟩)
        · cases h

/-- C1, counterexample. The claim says every per-page failure on a
non-seed page is converted to data and never aborts the run when the
seed itself is fetched successfully. Here the seed answers 200 and
links to `/a`, whose fetch raises a transport error: the crawl and the
link validator absorb that failure, but the unguarded fetch inside
`get_meta_data` re-raises it and the whole run aborts with a top-level
failure instead of a report. -/
theorem claim1_counterexample :
    net1 seedUrl = .ok (emptyPage 200 [⟨false, .relative "/a"⟩]) ∧
    (emptyPage 200 [⟨false, .relative "/a"⟩]).status = 200 ∧
    scan_and_check_links net1 seedUrl 0 = .error "Error: boom" := by
  refine ⟨rfl, rfl, ?_⟩
  decide

/-- C1, amended. When the seed fetch raises, the run yields the single
top-level failure outcome; when the seed answers non-200, likewise; and
any failing run failed either because the seed was unreachable or
because the metadata-extraction fetch of some crawled edge target
raised a transport error — traversal, sitemap resolution and link
validation never abort the run. -/
theorem claim1_failure_propagation (net : Net) (url : Url) (d : Nat) :
    (∀ e, net url = .err e →
      scan_and_check_links net url d = .error ("Error: " ++ e)) ∧
    (∀ response, net url = .ok response → response.status ≠ 200 →
      scan_and_check_links net url d =
        .error ("Error: Unable to access " ++ urlString url)) ∧
    (∀ s, scan_and_check_links net url d = .error s →
      (∃ e, net url = .err e) ∨
      (∃ response, net url = .ok response ∧ response.status ≠ 200) ∨
      (∃ link p e,
        (link, p) ∈ (extract_clickable_links_recursive net url d []).1 ∧
        net link = .err e ∧ s = "Error: " ++ e)) := by
  refine ⟨?_, ?_, ?_⟩
  · intro e he
    rw [scan_and_check_links, he]
  · intro response hresp hst
    rw [scan_and_check_links, hresp]
    simp only [ne_eq, hst, not_false_eq_true, if_true]
  · intro s hs
    rcases scan_error_inv net url d s hs with ⟨e, he, -⟩ | ⟨r, hr, hst, -⟩ | h3
    · exact Or.inl ⟨e, he⟩
    · exact Or.inr (Or.inl ⟨r, hr, hst⟩)
    · exact Or.inr (Or.inr h3)

/-- C1, witness: a seed whose fetch raises yields exactly the top-level
failure outcome. -/
theorem claim1_failure_propagation_witness :
    scan_and_check_links net1 pageB 0 = .error "Error: offline" :=
  (claim1_failure_propagation net1 pageB 0).1 "offline" rfl

/-- C2. Every edge (target, parent) produced by a crawl invocation has
both endpoints on the host of the original seed URL: domain scoping
stays anchored at the seed across the whole recursive traversal. -/
theorem claim2_edges_same_host (net : Net) (seedURL : Url)
    (maxDepth : Nat) (tp : Url × Url)
    (htp : tp ∈
      (extract_clickable_links_recursive net seedURL maxDepth []).1) :
    tp.1.host = seedURL.host ∧ tp.2.host = seedURL.host :=
  extract_host net maxDepth seedURL [] tp htp

/-- C2, witness: a concrete crawl producing an edge whose two endpoints
are then on the seed's host. -/
theorem claim2_edges_same_host_witness :
    (pageA, seedUrl) ∈
      (extract_clickable_links_recursive net1 seedUrl 0 []).1 ∧
    pageA.host = seedUrl.host ∧ seedUrl.host = seedUrl.host :=
  ⟨by decide, claim2_edges_same_host net1 seedUrl 0 (pageA, seedUrl)
    (by decide)⟩

/-- C3, counterexample. On a page whose `BreadcrumbList` positions (2,
1, 3) differ from document order (B, A, C), the extracted trail keeps
document order and prints each item's own position field — it is NOT
re-ordered by position, so it differs from the claimed
`"1: A (urlA) > 2: B (urlB) > 3: C (urlC)"`. -/
theorem claim3_counterexample :
    get_meta_data net3 seedUrl = .ok
      { title := none
        title_length := 0
        meta_description := none
        meta_description_length := 0
        h1_title := none
        canonical_url := none
        breadcrumbs_text :=
          some "2: B (urlB) > 1: A (urlA) > 3: C (urlC)" } ∧
    "2: B (urlB) > 1: A (urlA) > 3: C (urlC)" ≠
      "1: A (urlA) > 2: B (urlB) > 3: C (urlC)" := by
  constructor
  · rfl
  · decide

/-- C3, amended. For every page whose structured data consists of one
well-formed `BreadcrumbList`, the extracted trail lists the items in
the order they appear in the source list (document order), each
formatted as `position: name (url)` from its own fields and joined with
`" > "`; in particular, when the position fields are 1, 2, 3 in
document order the output equals
`"1: A (urlA) > 2: B (urlB) > 3: C (urlC)"`, but when positions differ
from document order the document order is kept. -/
theorem claim3_breadcrumb_document_order (net : Net) (url : Url)
    (pg : Page) (items : List BreadcrumbItem)
    (hnet : net url = .ok pg)
    (hjson : pg.jsonLd = [.parsed (some "BreadcrumbList") items])
    (hne : items ≠ []) :
    ∃ md, get_meta_data net url = .ok md ∧
      md.breadcrumbs_text =
        some (String.intercalate " > "
          (items.map format_breadcrumb_item)) := by
  rw [get_meta_data, hnet]
  refine ⟨_, rfl, ?_⟩
  have hbc : jsonld_breadcrumbs pg.jsonLd =
      items.map format_breadcrumb_item := by
    rw [hjson, jsonld_breadcrumbs]
    simp
  simp only [hbc]
  have hmapne : items.map format_breadcrumb_item ≠ [] := by
    simpa using hne
  rw [if_neg hmapne, if_neg hmapne]

/-- C3, witness: three items A, B, C with positions 1, 2, 3 in document
order yield exactly the claimed trail. -/
theorem claim3_breadcrumb_document_order_witness :
    ∃ md,
      get_meta_data
        (fun u => if u = seedUrl then
          .ok { crumbPage with jsonLd := [.parsed (some "BreadcrumbList")
            [⟨some 1, some "A", some "urlA"⟩,
             ⟨some 2, some "B", some "urlB"⟩,
             ⟨some 3, some "C", some "urlC"⟩]] }
          else .err "offline") seedUrl = .ok md ∧
      md.breadcrumbs_text =
        some "1: A (urlA) > 2: B (urlB) > 3: C (urlC)" := by
  have h := claim3_breadcrumb_document_order
    (fun u => if u = seedUrl then
      .ok { crumbPage with jsonLd := [.parsed (some "BreadcrumbList")
        [⟨some 1, some "A", some "urlA"⟩,
         ⟨some 2, some "B", some "urlB"⟩,
         ⟨some 3, some "C", some "urlC"⟩]] }
      else .err "offline") seedUrl
    { crumbPage with jsonLd := [.parsed (some "BreadcrumbList")
        [⟨some 1, some "A", some "urlA"⟩,
         ⟨some 2, some "B", some "urlB"⟩,
         ⟨some 3, some "C", some "urlC"⟩]] }
    [⟨some 1, some "A", some "urlA"⟩,
     ⟨some 2, some "B", some "urlB"⟩,
     ⟨some 3, some "C", some "urlC"⟩]
    (by decide) rfl (by decide)
  simpa using h

/-- C4. With `maxDepth = 0` a crawl returns exactly the seed page's
per-page link collection — an edge for each hash-free href resolving to
the seed's own host, other than the seed itself, each with the seed as
parent — and nothing else: no recursion happens and no grandchildren
edges appear. -/
theorem claim4_depth_zero (net : Net) (seedURL : Url) (response : Page)
    (hnet : net seedURL = .ok response) (hst : response.status = 200) :
    (extract_clickable_links_recursive net seedURL 0 []).1 =
      collect_page_links seedURL [seedURL] response.hrefs ∧
    ∀ tp : Url × Url,
      tp ∈ (extract_clickable_links_recursive net seedURL 0 []).1 ↔
        (tp.2 = seedURL ∧ ∃ a ∈ response.hrefs, a.hasHash = false ∧
          urljoin seedURL a.target = tp.1 ∧ tp.1.host = seedURL.host ∧
          tp.1 ≠ seedURL) := by
  have h1 : (extract_clickable_links_recursive net seedURL 0 []).1 =
      collect_page_links seedURL [seedURL] response.hrefs := by
    rw [extract_unfold]
    simp [hnet, hst]
  refine ⟨h1, ?_⟩
  intro tp
  rw [h1, mem_collect_page_links]
  constructor
  · rintro ⟨a, ha, hh, hres, hhost, hnv, hpar⟩
    exact ⟨hpar, a, ha, hh, hres, hhost, by simpa using hnv⟩
  · rintro ⟨hpar, a, ha, hh, hres, hhost, hne⟩
    exact ⟨a, ha, hh, hres, hhost, by simpa using hne, hpar⟩

/-- C4, witness: a depth-0 crawl of a concrete seed yields exactly its
direct same-domain edges. -/
theorem claim4_depth_zero_witness :
    (extract_clickable_links_recursive net1 seedUrl 0 []).1 =
      collect_page_links seedUrl [seedUrl]
        (emptyPage 200 [⟨false, .relative "/a"⟩]).hrefs :=
  (claim4_depth_zero net1 seedUrl
    (emptyPage 200 [⟨false, .relative "/a"⟩]) rfl rfl).1

/-- C5. Traversal (a total function here, so it terminates on every
input, cyclic link graphs included) fetches every URL at most once: the
instrumented crawler agrees with `extract_clickable_links_recursive`,
its fetch count equals the size of the final visited set, and that set
never holds a URL twice. -/
theorem claim5_fetch_count (net : Net) (seedURL : Url) (maxDepth : Nat) :
    (extract_clickable_links_recursiveN net seedURL maxDepth []).1 =
      extract_clickable_links_recursive net seedURL maxDepth [] ∧
    (extract_clickable_links_recursiveN net seedURL maxDepth []).2 =
      (extract_clickable_links_recursive net seedURL maxDepth []).2.length ∧
    (extract_clickable_links_recursive net seedURL maxDepth []).2.Nodup := by
  refine ⟨extractN_agree net maxDepth seedURL [], ?_,
    extract_visited_nodup net maxDepth seedURL [] List.nodup_nil⟩
  have h := extractN_count net maxDepth seedURL []
  simpa using h.symm

/-- C6. The link validator emits, in input edge order, exactly one
record per edge whose target fetch fails: a 404 as a 404 outcome, any
other non-200 status with that code, a transport failure with a
diagnostic message — and no record for a target answering 200. -/
theorem claim6_validator_classification (net : Net)
    (links : List (Url × Url)) :
    check_for_error_links net links =
      links.filterMap (fun lp =>
        match net lp.1 with
        | .err e =>
          some (lp.1, lp.2, .requestError ("Request error: " ++ e))
        | .ok response =>
          if response.status = 404 then some (lp.1, lp.2, .code 404)
          else if response.status ≠ 200 then
            some (lp.1, lp.2, .code response.status)
          else none) := by
  rw [check_for_error_links, check_for_error_links_aux]
  simp

/-- C7, counterexample. A page containing the same hyperlink twice
records the same edge twice — per-page extraction deduplicates only
against the visited (already fetched) set, not within the page — so a
resolved URL can appear more than once per page and more than one edge
per distinct target exists. -/
theorem claim7_counterexample :
    net7 seedUrl = .ok dupPage ∧
    (extract_clickable_links_recursive net7 seedUrl 2 []).1 =
      [(pageA, seedUrl), (pageA, seedUrl)] ∧
    2 ≤ ((extract_clickable_links_recursive net7 seedUrl 2 []).1.count
      (pageA, seedUrl)) := by
  refine ⟨rfl, by decide, by decide⟩

/-- C7, amended. Per-page link extraction keeps exactly the resolved
same-host URLs not yet in the visited (fetched) set — so a target
already fetched is never re-recorded, and in particular no recorded
target lies in the visited set passed to the invocation nor equals the
invocation's start URL — but it does not deduplicate within a page, and
the same target may be recorded by several edges. -/
theorem claim7_no_refetched_targets (net : Net) (seedURL : Url)
    (maxDepth : Nat) (visited : List Url) (tp : Url × Url)
    (htp : tp ∈
      (extract_clickable_links_recursive net seedURL maxDepth visited).1) :
    tp.1.host = seedURL.host ∧ tp.1 ∉ visited ∧ tp.1 ≠ seedURL := by
  have hfresh := extract_target_fresh net maxDepth seedURL visited tp htp
  have hhost := (extract_host net maxDepth seedURL visited tp htp).1
  simp only [List.mem_cons, not_or] at hfresh
  exact ⟨hhost, hfresh.2, hfresh.1⟩

/-- C7, witness: the duplicated edge target above is on the seed host,
was not previously visited, and is not the seed. -/
theorem claim7_no_refetched_targets_witness :
    pageA.host = seedUrl.host ∧ pageA ∉ ([] : List Url) ∧
    pageA ≠ seedUrl :=
  claim7_no_refetched_targets net7 seedUrl 2 [] (pageA, seedUrl)
    (by decide)

/-- `scan_meta_calls` on a successful control path: one seed extraction
plus the extractions made by the results loop. -/
theorem scan_meta_calls_ok (net : Net) (url : Url) (d : Nat)
    (response : Page) (md : MetaData)
    (hnet : net url = .ok response) (hst : response.status = 200)
    (hmd : get_meta_data net url = .ok md) :
    scan_meta_calls net url d =
      1 + (build_resultsN net ((get_sitemap_urls net url).map Url.path)
        (extract_clickable_links_recursive net url d []).1
        [mkPageResult url md
          ((get_sitemap_urls net url).map Url.path)]).2 := by
  rw [scan_meta_calls, hnet]
  dsimp only
  rw [if_neg (by simp [hst])]
  rw [hmd]

/-- Every record emitted by the link validator stems from an input
edge, whose target and parent it carries. -/
theorem check_for_error_links_source (net : Net)
    (links : List (Url × Url)) (rec : Url × Url × StatusOutcome)
    (hrec : rec ∈ check_for_error_links net links) :
    ∃ lp ∈ links, rec.1 = lp.1 ∧ rec.2.1 = lp.2 := by
  rw [check_for_error_links, check_for_error_links_aux] at hrec
  simp only [List.nil_append, List.mem_filterMap] at hrec
  obtain ⟨lp, hlp, hsome⟩ := hrec
  refine ⟨lp, hlp, ?_⟩
  cases hnet : net lp.1 with
  | err e =>
    rw [hnet] at hsome
    cases hsome
    exact ⟨rfl, rfl⟩
  | ok response =>
    rw [hnet] at hsome
    dsimp only at hsome
    by_cases h404 : response.status = 404
    · rw [if_pos h404] at hsome
      cases hsome
      exact ⟨rfl, rfl⟩
    · rw [if_neg h404] at hsome
      by_cases h200 : response.status = 200
      · simp [h200] at hsome
      · rw [if_pos (by simpa using h200)] at hsome
        cases hsome
        exact ⟨rfl, rfl⟩

/-- C8. In every successful run, a page entry is marked `in_sitemap`
exactly when its URL's path component equals the path of a location
declared by a conventional sitemap probe that answered 200 (failing or
erroring probes contribute nothing); consequently when every probe
fails to answer 200 every page is marked `in_sitemap = false` — while
the run as a whole still succeeds. -/
theorem claim8_sitemap_membership (net : Net) (url : Url) (d : Nat)
    (results : List PageResult)
    (broken : List (Url × Url × StatusOutcome))
    (h : scan_and_check_links net url d = .ok results broken) :
    (∀ r ∈ results,
      r.in_sitemap = true ↔
        ∃ sp ∈ sitemap_paths, ∃ response,
          net (urljoin url (.relative sp)) = .ok response ∧
          response.status = 200 ∧
          ∃ loc ∈ response.sitemapLocs,
            (urljoin url loc).path = r.link.path) ∧
    ((∀ sp ∈ sitemap_paths, ∀ response,
        net (urljoin url (.relative sp)) = .ok response →
        response.status ≠ 200) →
      ∀ r ∈ results, r.in_sitemap = false) := by
  obtain ⟨response, md, hnet, hst, hmd, hb, -⟩ :=
    scan_ok_inv net url d results broken h
  have hinv : ∀ r ∈ results,
      r.in_sitemap =
        decide (r.link.path ∈ (get_sitemap_urls net url).map Url.path) := by
    refine build_results_invariant net _
      (fun r => r.in_sitemap =
        decide (r.link.path ∈ (get_sitemap_urls net url).map Url.path))
      ?_ _ _ _ hb ?_
    · intro link md' _
      rfl
    · intro r hr
      simp only [List.mem_singleton] at hr
      subst hr
      rfl
  have hmem : ∀ p : String,
      p ∈ (get_sitemap_urls net url).map Url.path ↔
        ∃ sp ∈ sitemap_paths, ∃ resp,
          net (urljoin url (.relative sp)) = .ok resp ∧
          resp.status = 200 ∧
          ∃ loc ∈ resp.sitemapLocs, (urljoin url loc).path = p := by
    intro p
    simp only [List.mem_map]
    constructor
    · rintro ⟨u, hu, rfl⟩
      obtain ⟨sp', hsp', resp, hresp, hstresp, loc, hloc, hres⟩ :=
        (mem_get_sitemap_urls net url u).mp hu
      exact ⟨sp', hsp', resp, hresp, hstresp, loc, hloc, by rw [hres]⟩
    · rintro ⟨sp', hsp', resp, hresp, hstresp, loc, hloc, hres⟩
      exact ⟨urljoin url loc,
        (mem_get_sitemap_urls net url _).mpr
          ⟨sp', hsp', resp, hresp, hstresp, loc, hloc, rfl⟩, hres⟩
  constructor
  · intro r hr
    rw [hinv r hr, decide_eq_true_eq]
    exact hmem r.link.path
  · intro hfail r hr
    rw [hinv r hr, decide_eq_false_iff_not]
    intro hmemp
    obtain ⟨sp', hsp', resp, hresp, hstresp, -⟩ :=
      (hmem r.link.path).mp hmemp
    exact hfail sp' hsp' resp hresp hstresp

/-- C9. In every successful run the results mapping holds exactly one
entry per unique URL (no key twice), the number of `get_meta_data`
calls made equals the number of entries — metadata extraction ran
exactly once per entry, duplicate attempts suppressed — and each entry
is exactly the record assembled from its URL's single extraction,
never mutated afterwards. -/
theorem claim9_metadata_once (net : Net) (url : Url) (d : Nat)
    (results : List PageResult)
    (broken : List (Url × Url × StatusOutcome))
    (h : scan_and_check_links net url d = .ok results broken) :
    (results.map PageResult.link).Nodup ∧
    scan_meta_calls net url d = results.length ∧
    ∀ r ∈ results, ∃ md, get_meta_data net r.link = .ok md ∧
      r = mkPageResult r.link md
        ((get_sitemap_urls net url).map Url.path) := by
  obtain ⟨response, md, hnet, hst, hmd, hb, -⟩ :=
    scan_ok_inv net url d results broken h
  refine ⟨?_, ?_, ?_⟩
  · refine build_results_keys_nodup net _ _ _ _ hb ?_
    simp [mkPageResult_link]
  · rw [scan_meta_calls_ok net url d response md hnet hst hmd]
    have hc := build_resultsN_count net _ _ _ _ hb
    simp only [List.length_singleton] at hc
    omega
  · refine build_results_invariant net _
      (fun r => ∃ md', get_meta_data net r.link = .ok md' ∧
        r = mkPageResult r.link md'
          ((get_sitemap_urls net url).map Url.path))
      ?_ _ _ _ hb ?_
    · intro link md' hmd'
      refine ⟨md', ?_, rfl⟩
      rw [mkPageResult_link]
      exact hmd'
    · intro r hr
      simp only [List.mem_singleton] at hr
      subst hr
      refine ⟨md, ?_, rfl⟩
      rw [mkPageResult_link]
      exact hmd

/-- C10. No edge produced by a crawl targets the seed URL — it is
visited before any link is extracted and visited links are never
recorded — and consequently the link validator, which probes exactly
the edge targets, never emits a record for the seed. -/
theorem claim10_no_seed_edges (net : Net) (seedURL : Url)
    (maxDepth : Nat) :
    (∀ tp ∈ (extract_clickable_links_recursive net seedURL maxDepth []).1,
      tp.1 ≠ seedURL) ∧
    (∀ rec ∈ check_for_error_links net
        (extract_clickable_links_recursive net seedURL maxDepth []).1,
      rec.1 ≠ seedURL) := by
  have h1 : ∀ tp ∈
      (extract_clickable_links_recursive net seedURL maxDepth []).1,
      tp.1 ≠ seedURL := by
    intro tp htp heq
    exact extract_target_fresh net maxDepth seedURL [] tp htp
      (by rw [heq]; exact List.mem_cons_self _ _)
  refine ⟨h1, ?_⟩
  intro rec hrec
  obtain ⟨lp, hlp, hfst, -⟩ :=
    check_for_error_links_source net _ rec hrec
  rw [hfst]
  exact h1 lp hlp

/-- C8, witness: with every sitemap probe failing, the run still
succeeds and the seed's entry is marked `in_sitemap = false`. -/
theorem claim8_sitemap_membership_witness :
    seedEntry8.in_sitemap = false := by
  have h := claim8_sitemap_membership net8 seedUrl 0 [seedEntry8] []
    (by decide)
  refine h.2 ?_ seedEntry8 (by simp)
  intro sp hsp response hresp
  exfalso
  simp only [sitemap_paths, List.mem_cons, List.not_mem_nil,
    or_false] at hsp
  rcases hsp with rfl | rfl | rfl
  · rw [show net8 (urljoin seedUrl (HrefTarget.relative "/sitemap.xml")) =
      FetchResult.err "offline" from rfl] at hresp
    cases hresp
  · rw [show net8 (urljoin seedUrl (HrefTarget.relative "/en/sitemap.xml")) =
      FetchResult.err "offline" from rfl] at hresp
    cases hresp
  · rw [show net8 (urljoin seedUrl (HrefTarget.relative "/es/sitemap.xml")) =
      FetchResult.err "offline" from rfl] at hresp
    cases hresp

/-- C9, witness: a concrete successful run with a single page makes
exactly one metadata extraction call. -/
theorem claim9_metadata_once_witness :
    scan_meta_calls net8 seedUrl 0 = 1 := by
  have h := claim9_metadata_once net8 seedUrl 0 [seedEntry8] []
    (by decide)
  simpa using h.2.1

/-- C10, witness: in a crawl with a self-link and a back-link to the
seed, a recorded edge's target is not the seed. -/
theorem claim10_no_seed_edges_witness : pageA ≠ seedUrl :=
  (claim10_no_seed_edges net10 seedUrl 2).1 (pageA, seedUrl) (by decide)
